import Mathlib

/-!
A verification development for the CodeForge task runner.

Each Go function relevant to the checked properties is shallowly embedded
as an executable Lean definition; Redis state is passed explicitly, machine
integers become `Nat`, and fallible operations return `Option`/`Except`-style
results.  Theorems at the end of the file settle the stated properties.
-/

namespace Codeforge

/-! ## Task state machine (internal/task/state.go, task service part) -/

/-- `TaskStatus` is a string type in the Go source (`type TaskStatus string`). -/
abbrev TaskStatus := String

def StatusPending : TaskStatus := "pending"

def StatusCloning : TaskStatus := "cloning"

def StatusRunning : TaskStatus := "running"

def StatusCompleted : TaskStatus := "completed"

def StatusFailed : TaskStatus := "failed"

def StatusAwaitingInstruction : TaskStatus := "awaiting_instruction"

def StatusCreatingPR : TaskStatus := "creating_pr"

def StatusPRCreated : TaskStatus := "pr_created"

/-- The `validTransitions` map of `internal/task/state.go`, as an association
list (Go map from status to the list of allowed next statuses). -/
def validTransitions : List (TaskStatus × List TaskStatus) :=
  [ (StatusPending, [StatusCloning, StatusFailed]),
    (StatusCloning, [StatusRunning, StatusFailed]),
    (StatusRunning, [StatusCompleted, StatusFailed]),
    (StatusCompleted, [StatusAwaitingInstruction, StatusCreatingPR]),
    (StatusFailed, []),
    (StatusAwaitingInstruction, [StatusRunning, StatusFailed]),
    (StatusCreatingPR, [StatusPRCreated, StatusFailed]),
    (StatusPRCreated, [StatusAwaitingInstruction, StatusCompleted]) ]

/-- `apperror.AppError`: structured error with sentinel kind, message and
HTTP status (internal/apperror/errors.go). The sentinel is kept as its
message string. -/
structure AppError where
  err : String
  message : String
  status : Nat
deriving Repr, DecidableEq

/-- Sentinel `apperror.ErrInvalidTransition`. -/
def ErrInvalidTransition : String := "invalid state transition"

/-- Sentinel `apperror.ErrNotFound`. -/
def ErrNotFound : String := "not found"

/-- `task.ValidateTransition` (internal/task/state.go): `none` means the
transition is accepted (Go returns `nil`). -/
def ValidateTransition (current next : TaskStatus) : Option AppError :=
  match validTransitions.lookup current with
  | none =>
      some { err := ErrInvalidTransition,
             message := "unknown status: " ++ current,
             status := 409 }
  | some allowed =>
      if next ∈ allowed then none
      else
        some { err := ErrInvalidTransition,
               message := "invalid transition: " ++ current ++ " → " ++ next,
               status := 409 }

/-- `task.IsTerminal` (internal/task/state.go). -/
def IsTerminal (s : TaskStatus) : Bool :=
  s = StatusFailed

/-- `task.IsFinished` (internal/task/state.go). -/
def IsFinished (s : TaskStatus) : Bool :=
  s = StatusCompleted || s = StatusFailed || s = StatusPRCreated

/-- The Redis hash at `task:{id}:state`, restricted to the fields touched by
`Service.UpdateStatus`.  `ttl = none` models a key with no expiry;
`ttl = some d` models a pending `EXPIRE d` on the key.  Timestamps are
abstract `Nat` clock values. -/
structure TaskRecord where
  status : TaskStatus
  updatedAt : Nat
  startedAt : Option Nat
  finishedAt : Option Nat
  ttl : Option Nat
deriving Repr, DecidableEq

/-- `Service.UpdateStatus` (task service): read the current status
(`none` record means the Redis key is absent), validate the transition, and
on success write the new status plus timestamps in one pipeline, applying
the state TTL exactly when the new status is finished.  The returned pair
is (state of the record after the call, error if any); every error path in
the Go function returns before any Redis write, hence the record passes
through unchanged on error. -/
def UpdateStatus (stateTTL now : Nat) (rec : Option TaskRecord)
    (newStatus : TaskStatus) : Option TaskRecord × Option AppError :=
  match rec with
  | none =>
      (none, some { err := ErrNotFound,
                    message := "task not found",
                    status := 404 })
  | some r =>
      match ValidateTransition r.status newStatus with
      | some e => (some r, some e)
      | none =>
          let r1 := { r with status := newStatus, updatedAt := now }
          let r2 :=
            if newStatus = StatusCloning ∨ newStatus = StatusRunning then
              { r1 with startedAt := some now }
            else if newStatus = StatusCompleted ∨ newStatus = StatusFailed
                ∨ newStatus = StatusPRCreated then
              { r1 with finishedAt := some now }
            else r1
          let r3 :=
            if IsFinished newStatus then { r2 with ttl := some stateTTL }
            else r2
          (some r3, none)

/-- The transition table exactly as the claim states it: the 14 allowed
(current, next) pairs.  This is the specification-side table, to be compared
with the behaviour of `UpdateStatus`. -/
def specAllowedPairs : List (TaskStatus × TaskStatus) :=
  [ (StatusPending, StatusCloning), (StatusPending, StatusFailed),
    (StatusCloning, StatusRunning), (StatusCloning, StatusFailed),
    (StatusRunning, StatusCompleted), (StatusRunning, StatusFailed),
    (StatusCompleted, StatusAwaitingInstruction),
    (StatusCompleted, StatusCreatingPR),
    (StatusAwaitingInstruction, StatusRunning),
    (StatusAwaitingInstruction, StatusFailed),
    (StatusCreatingPR, StatusPRCreated), (StatusCreatingPR, StatusFailed),
    (StatusPRCreated, StatusAwaitingInstruction),
    (StatusPRCreated, StatusCompleted) ]

/-- Specification-side predicate: the pair (current, next) is allowed by the
claim's table. -/
def specAllowed (current next : TaskStatus) : Bool :=
  decide ((current, next) ∈ specAllowedPairs)

/-- The state of the `task:{id}:state` key after the five `UpdateStatus`
calls pending → cloning → running → completed → awaiting_instruction →
running, with state TTL 7 and clock values 1..5.  This is the follow-up
(instruct) path of a task whose first iteration completed. -/
def followUpRunRecord : Option TaskRecord × Option AppError :=
  let s0 : Option TaskRecord :=
    some { status := StatusPending, updatedAt := 0,
           startedAt := none, finishedAt := none, ttl := none }
  let s1 := (UpdateStatus 7 1 s0 StatusCloning).1
  let s2 := (UpdateStatus 7 2 s1 StatusRunning).1
  let s3 := (UpdateStatus 7 3 s2 StatusCompleted).1
  let s4 := (UpdateStatus 7 4 s3 StatusAwaitingInstruction).1
  UpdateStatus 7 5 s4 StatusRunning

/-! ## Prompt construction (worker executor, `Executor.buildPrompt`) -/

/-- `task.Iteration`, restricted to the fields read by `buildPrompt`. -/
structure Iteration where
  number : Nat
  prompt : String
  result : String
  status : TaskStatus
deriving Repr, DecidableEq

/-- The `entry` string built for one prior iteration inside
`Executor.buildPrompt` (the `fmt.Sprintf` call). -/
def formatEntry (it : Iteration) : String :=
  "### Iteration " ++ toString it.number ++ "\n**Prompt:** " ++ it.prompt
    ++ "\n**Result summary:** " ++ it.result ++ "\n**Status:** " ++ it.status
    ++ "\n\n"

/-- `defaultMaxContextChars` of the worker package. -/
def defaultMaxContextChars : Nat := 50000

/-- The entry-accumulating loop of `Executor.buildPrompt`: walks the stored
iterations in list order keeping a running character total; the first entry
that would push the total past `defaultMaxContextChars` stops the loop,
dropping that entry and every later one and flagging truncation.  Returns
the kept entry strings in order and the truncation flag. -/
def contextLoop (total : Nat) : List Iteration → List String × Bool
  | [] => ([], false)
  | it :: rest =>
      let entry := formatEntry it
      if total + entry.length > defaultMaxContextChars then ([], true)
      else
        let tail := contextLoop (total + entry.length) rest
        (entry :: tail.1, tail.2)

/-- `Executor.buildPrompt`.  `iterations` stands for the list returned by
`GetIterations`.  `GetIterations` itself is not among the sources; modelled
from the spec: it returns the task's stored iteration records, which are
"appended in issue order", i.e. oldest first.  The Go error path of
`GetIterations` is folded into the empty-list case (both return
`currentPrompt`), and `currentPrompt` stands for `t.CurrentPrompt`
(falling back to `t.Prompt` when empty). -/
def buildPrompt (iterations : List Iteration) (iteration : Nat)
    (currentPrompt : String) : String :=
  if iteration ≤ 1 then currentPrompt
  else if iterations.isEmpty then currentPrompt
  else
    let res := contextLoop 0 iterations
    "## Previous iterations on this codebase:\n\n"
      ++ String.join res.1
      ++ (if res.2 then "(earlier iterations truncated for context limits)\n\n"
          else "")
      ++ "## Current instruction:\n\n"
      ++ currentPrompt

/-- A prompt of 50,000 characters: its iteration entry alone exceeds the
context budget. -/
def hugePrompt : String := String.mk (List.replicate 50000 'a')

/-! ## Diff computation (internal/git/diff.go) -/

/-- The three counters accumulated by the status loop of
`CalculateChanges`. -/
structure Counts where
  modified : Nat
  created : Nat
  deleted : Nat
deriving Repr, DecidableEq

/-- One step of the `git status --porcelain` line loop in
`CalculateChanges`: lines shorter than 3 bytes are skipped, otherwise the
two-character code `xy := line[:2]` selects a counter via the Go
`switch`. -/
def classifyLine (acc : Counts) (line : String) : Counts :=
  if line.length < 3 then acc
  else
    let xy := line.take 2
    if xy = "??" ∨ xy = "A " ∨ xy = " A" then
      { acc with created := acc.created + 1 }
    else if xy = " D" ∨ xy = "D " then
      { acc with deleted := acc.deleted + 1 }
    else if xy = " M" ∨ xy = "M " ∨ xy = "MM" then
      { acc with modified := acc.modified + 1 }
    else if xy = "AM" then
      { acc with created := acc.created + 1 }
    else if xy = "RM" ∨ xy = "R " then
      { acc with modified := acc.modified + 1 }
    else acc

/-- The status-counting loop of `CalculateChanges` over the lines of the
`git status --porcelain` output (the Go `strings.Split(string(statusOut),
"\n")`; splitting an empty output yields the single line `""`). -/
def statusCounts (statusLines : List String) : Counts :=
  statusLines.foldl classifyLine { modified := 0, created := 0, deleted := 0 }

/-- `git.ChangesSummary`. -/
structure ChangesSummary where
  filesModified : Nat
  filesCreated : Nat
  filesDeleted : Nat
  diffStats : String
deriving Repr, DecidableEq

/-- Go `strings.TrimSpace`: drop leading and trailing whitespace. -/
def trimSpace (s : String) : String :=
  String.mk (((s.data.dropWhile Char.isWhitespace).reverse.dropWhile
    Char.isWhitespace).reverse)

/-- `parseShortStat`: trim, return zeros on empty input, otherwise hand the
trimmed text to the regex match.  The regex engine is external to the
repository; it is abstracted as the parameter `regexPart`, which the claims
never constrain on non-empty input. -/
def parseShortStat (regexPart : String → Nat × Nat) (s : String) : Nat × Nat :=
  if trimSpace s = "" then (0, 0) else regexPart (trimSpace s)

/-- `git.CalculateChanges`, with the three `git` subprocess outputs passed
in (`git status --porcelain`, `git diff --shortstat`,
`git diff --cached --shortstat`). -/
def CalculateChanges (regexPart : String → Nat × Nat)
    (statusLines : List String) (unstagedOut stagedOut : String) : ChangesSummary :=
  let c := statusCounts statusLines
  let u := parseShortStat regexPart unstagedOut
  let st := parseShortStat regexPart stagedOut
  { filesModified := c.modified,
    filesCreated := c.created,
    filesDeleted := c.deleted,
    diffStats := "+" ++ toString (u.1 + st.1) ++ " -" ++ toString (u.2 + st.2) }

/-- The set of created-codes exactly as the claim lists them. -/
def claimCreatedCode (xy : String) : Bool :=
  xy = "??" || xy = "A " || xy = " A"

/-- The set of deleted-codes exactly as the claim lists them. -/
def claimDeletedCode (xy : String) : Bool :=
  xy = " D" || xy = "D "

/-- The set of modified-codes exactly as the claim lists them. -/
def claimModifiedCode (xy : String) : Bool :=
  xy = " M" || xy = "M " || xy = "MM" || xy = "R " || xy = "RM"

/-- The created-codes amended with `AM`, which the source also counts as a
created file ("added then modified"). -/
def amendedCreatedCode (xy : String) : Bool :=
  claimCreatedCode xy || xy = "AM"

/-- A porcelain line counted as a created file, per the amended claim:
long enough not to be skipped, with code `??`, `A `, ` A` or `AM`. -/
def countedCreated (l : String) : Bool :=
  if l.length < 3 then false else amendedCreatedCode (l.take 2)

/-- A porcelain line counted as a deleted file. -/
def countedDeleted (l : String) : Bool :=
  if l.length < 3 then false else claimDeletedCode (l.take 2)

/-- A porcelain line counted as a modified file. -/
def countedModified (l : String) : Bool :=
  if l.length < 3 then false else claimModifiedCode (l.take 2)

/-! ## CLI runner stream extraction (internal/cli/claude.go) -/

/-- One entry of an assistant message's `content` array. -/
structure ContentBlock where
  type : String
  text : String
deriving Repr, DecidableEq

/-- One parsed stream-json line, after the `type` discriminator: a `result`
event with its `result` field and usage counters, an `assistant` event
with its content, or any other / unparsable line (which `extractStreamData`
answers with empty strings and zero counters). -/
inductive StreamEvent where
  | result (resultField : String) (inputTokens outputTokens : Nat)
  | assistant (content : List ContentBlock)
  | other
deriving Repr, DecidableEq

/-- What one call of `extractStreamData` returns. -/
structure Extracted where
  resultText : String
  assistantText : String
  inputTokens : Nat
  outputTokens : Nat
deriving Repr, DecidableEq

/-- The assistant branch of `extractStreamData`: concatenate `c.Text` over
the content entries with `c.Type == "text" && c.Text != ""` into a string
builder. -/
def assistantFoldText (content : List ContentBlock) : String :=
  content.foldl
    (fun sb c => if c.type = "text" ∧ c.text ≠ "" then sb ++ c.text else sb) ""

/-- `extractStreamData` (internal/cli/claude.go). -/
def extractStreamData : StreamEvent → Extracted
  | .result r i o =>
      { resultText := r, assistantText := "", inputTokens := i, outputTokens := o }
  | .assistant content =>
      { resultText := "", assistantText := assistantFoldText content,
        inputTokens := 0, outputTokens := 0 }
  | .other =>
      { resultText := "", assistantText := "", inputTokens := 0, outputTokens := 0 }

/-- The accumulator of `ClaudeRunner.Run`'s scanner loop: `resultText`,
`lastAssistantText`, and the token sums. -/
structure RunAcc where
  resultText : String
  lastAssistantText : String
  inputTokens : Nat
  outputTokens : Nat
deriving Repr, DecidableEq

/-- One pass of the scanner loop body of `ClaudeRunner.Run` over a parsed
line. -/
def runStep (acc : RunAcc) (ev : StreamEvent) : RunAcc :=
  let d := extractStreamData ev
  { resultText := if d.resultText ≠ "" then d.resultText else acc.resultText,
    lastAssistantText :=
      if d.assistantText ≠ "" then d.assistantText else acc.lastAssistantText,
    inputTokens := acc.inputTokens + d.inputTokens,
    outputTokens := acc.outputTokens + d.outputTokens }

/-- The scanner loop of `ClaudeRunner.Run` over the whole stream of parsed
stdout lines. -/
def runFold (events : List StreamEvent) : RunAcc :=
  events.foldl runStep
    { resultText := "", lastAssistantText := "", inputTokens := 0, outputTokens := 0 }

/-- The output selection after the loop: prefer the result event's text,
fall back to the last assistant text. -/
def runOutput (events : List StreamEvent) : String :=
  let acc := runFold events
  if acc.resultText = "" then acc.lastAssistantText else acc.resultText

/-- Specification-side text of an assistant event, as the claim words it:
the concatenation of the `text` fields of all `content[].type == "text"`
entries. -/
def specAssistantText (content : List ContentBlock) : String :=
  String.join ((content.filter (fun c => c.type = "text")).map (fun c => c.text))

/-- The text an assistant event contains (`none` for other events and for
assistant events with no text). -/
def assistantTextOfEvent : StreamEvent → Option String
  | .assistant content =>
      let t := specAssistantText content
      if t = "" then none else some t
  | _ => none

/-- Specification-side fallback output: the text of the latest assistant
event that contained text. -/
def latestAssistantText (events : List StreamEvent) : String :=
  ((events.filterMap assistantTextOfEvent).getLast?).getD ""

/-- Whether a stream event is a `result`-typed event. -/
def isResultEvent : StreamEvent → Bool
  | .result _ _ _ => true
  | _ => false

/-! ## Crypto service (internal/crypto/service.go)

The AES-256-GCM primitive and the base64 codec live in the Go standard
library, outside this repository; they are abstracted as structures
carrying exactly the properties their documentation guarantees (an AEAD
opens what it seals; base64 decoding inverts encoding, and only the empty
input encodes to the empty text).  Byte strings are `List Nat`; the base64
text is likewise modelled by its byte sequence. -/

/-- An authenticated symmetric cipher (`cipher.AEAD`): `seal nonce pt`
is the ciphertext-plus-tag appended by `Seal` after its `dst` argument;
`opn` inverts it. -/
structure AEAD where
  nonceSize : Nat
  nonceSizePos : 0 < nonceSize
  sealOp : List Nat → List Nat → List Nat
  openOp : List Nat → List Nat → Option (List Nat)
  open_seal : ∀ nonce pt, openOp nonce (sealOp nonce pt) = some pt

/-- The base64 codec (`base64.StdEncoding`). -/
structure ByteEncoding where
  encode : List Nat → List Nat
  decode : List Nat → Option (List Nat)
  decode_encode : ∀ bs, decode (encode bs) = some bs
  encode_empty : ∀ bs, encode bs = [] ↔ bs = []

/-- `crypto.Service.Encrypt`: empty plaintext short-circuits to the empty
ciphertext; otherwise the drawn nonce is prepended (via `Seal`'s `dst`)
and the whole sealed blob base64-encoded.  The randomly drawn nonce is the
explicit `nonce` argument; the Go code always draws exactly
`nonceSize` bytes. -/
def Encrypt (A : AEAD) (B : ByteEncoding) (nonce pt : List Nat) : List Nat :=
  if pt = [] then [] else B.encode (nonce ++ A.sealOp nonce pt)

/-- `crypto.Service.Decrypt`. -/
def Decrypt (A : AEAD) (B : ByteEncoding) (ct : List Nat) :
    Except String (List Nat) :=
  if ct = [] then .ok []
  else
    match B.decode ct with
    | none => .error "crypto: invalid base64 ciphertext"
    | some data =>
        if data.length < A.nonceSize then .error "crypto: ciphertext too short"
        else
          match A.openOp (data.take A.nonceSize) (data.drop A.nonceSize) with
          | none => .error "crypto: decryption failed"
          | some pt => .ok pt

/-- A concrete lawful cipher used to instantiate witnesses. -/
def plainAEAD : AEAD where
  nonceSize := 1
  nonceSizePos := by decide
  sealOp := fun _ pt => pt
  openOp := fun _ ct => some ct
  open_seal := fun _ _ => rfl

/-- A concrete lawful codec used to instantiate witnesses. -/
def shiftEncoding : ByteEncoding where
  encode := fun bs => bs.map (· + 1)
  decode := fun cs => some (cs.map (· - 1))
  decode_encode := by
    intro bs
    simp [List.map_map, Function.comp_def]
  encode_empty := by
    intro bs
    simp

/-! ## SSE stream handler (internal/server/handlers/stream.go)

The handler is linear code over the connection; it is modelled as the
ordered trace of externally visible actions it performs, with the
nondeterministic `select` of the live loop driven by a given sequence of
loop events. -/

/-- The externally visible actions of `StreamHandler.Stream`, in the order
the handler performs them. -/
inductive SSEAction where
  | subscribe
  | writeConnected
  | readHistory
  | writeHistoryEntry (payload : String)
  | writeDone
  | writeKeepalive
  | writeLive (payload : String)
  | writeTimeout
  | close
deriving Repr, DecidableEq

/-- One arrival at the live loop's `select`. -/
inductive LoopEvent where
  | keepaliveTick
  | message (fromDoneChannel : Bool) (payload : String)
  | clientDisconnect
  | deadlineReached
deriving Repr, DecidableEq

/-- The live `select` loop of `StreamHandler.Stream`: keepalive comments,
live messages, the done-channel message (forwarded as a named done event,
then the stream closes), client disconnect, and the ten-minute deadline.
An exhausted event list models the Pub/Sub channel closing. -/
def liveLoop : List LoopEvent → List SSEAction
  | [] => [SSEAction.close]
  | LoopEvent.keepaliveTick :: rest => SSEAction.writeKeepalive :: liveLoop rest
  | LoopEvent.message fromDone p :: rest =>
      if fromDone then [SSEAction.writeDone, SSEAction.close]
      else SSEAction.writeLive p :: liveLoop rest
  | LoopEvent.clientDisconnect :: _ => [SSEAction.close]
  | LoopEvent.deadlineReached :: _ =>
      [SSEAction.writeTimeout, SSEAction.close]

/-- The action trace of `StreamHandler.Stream` after the task was loaded:
for a non-finished task, subscribe to the live and done channels first,
then write `connected`, read and replay the history, and enter the live
loop; for a finished task, skip the subscription, write `connected`,
replay history, write `done` and close. -/
def streamTrace (finished : Bool) (history : List String)
    (events : List LoopEvent) : List SSEAction :=
  (if finished then [] else [SSEAction.subscribe])
    ++ [SSEAction.writeConnected, SSEAction.readHistory]
    ++ history.map SSEAction.writeHistoryEntry
    ++ (if finished then [SSEAction.writeDone, SSEAction.close]
        else liveLoop events)

/-! ## Webhook sender (task package, `Sender.Send`) -/

/-- The outcome of one HTTP attempt: a transport error or a response with
a status code. -/
inductive AttemptOutcome where
  | netError
  | response (statusCode : Nat)
deriving Repr, DecidableEq

/-- The success test of `Sender.Send`: `200 <= code < 300`. -/
def is2xx : AttemptOutcome → Bool
  | .netError => false
  | .response c => 200 ≤ c && c < 300

/-- The observable trace of one `Send` call: attempts performed, backoff
waits performed (in order), and whether delivery succeeded. -/
structure SendTrace where
  attempts : Nat
  waits : List Nat
  delivered : Bool
deriving Repr, DecidableEq

/-- The retry loop of `Sender.Send`: `for attempt := 0; attempt <=
maxRetries; attempt++`, waiting `5^(attempt-1) * baseDelay` before every
attempt after the first, stopping at the first 2xx response.  `fuel` is
the number of loop iterations left (`maxRetries + 1 - attempt`). -/
def sendLoop (outcome : Nat → AttemptOutcome) (baseDelay : Nat) :
    Nat → Nat → SendTrace
  | _, 0 => { attempts := 0, waits := [], delivered := false }
  | attempt, fuel + 1 =>
      let waits := if attempt > 0 then [5 ^ (attempt - 1) * baseDelay] else []
      if is2xx (outcome attempt) then
        { attempts := 1, waits := waits, delivered := true }
      else
        let rest := sendLoop outcome baseDelay (attempt + 1) fuel
        { attempts := rest.attempts + 1, waits := waits ++ rest.waits,
          delivered := rest.delivered }

/-- `Sender.Send` (webhook delivery), as a function of the per-attempt
outcomes. -/
def Send (maxRetries baseDelay : Nat) (outcome : Nat → AttemptOutcome) :
    SendTrace :=
  sendLoop outcome baseDelay 0 (maxRetries + 1)

/-! ## Rate-limit middleware (internal/server/middleware/ratelimit.go) -/

/-- `extractClientID`: Go `strings.TrimPrefix(auth, "Bearer ")` drops the
leading `"Bearer "` when present and otherwise returns `auth` unchanged;
when nothing was trimmed the client id is empty.  A request with no
Authorization header reaches this function as the empty string. -/
def extractClientID (auth : String) : String :=
  let token :=
    if "Bearer ".data.isPrefixOf auth.data then auth.drop "Bearer ".length
    else auth
  if auth = token then "" else token

/-- What the middleware does with a request. -/
inductive MWOutcome where
  | forwarded (counterTouched : Bool)
  | rejected429
deriving Repr, DecidableEq

/-- `RateLimiter.Middleware`: an empty client id forwards immediately;
otherwise `rl.allow` runs (reading and updating the ZSET sliding-window
counter — abstracted as `allowResult`) and its verdict decides between
forwarding and a 429 rejection. -/
def rateLimitMiddleware (auth : String) (allowResult : Bool) : MWOutcome :=
  let clientID := extractClientID auth
  if clientID = "" then .forwarded false
  else if allowResult then .forwarded true
  else .rejected429

/-! ## Clone error sanitisation (internal/git/clone.go)

Strings are handled at byte level here (`List Char`), since the sanitiser
is a byte-substring replacement. -/

/-- The scan of Go `strings.ReplaceAll s t r` for a non-empty pattern `t`:
left to right, replacing each leftmost non-overlapping occurrence of `t`
by `r`.  `fuel` only bounds the recursion; every call keeps
`s.length ≤ fuel`, so the fuel-exhaustion arm is never taken. -/
def replaceAllAux (t r : List Char) : Nat → List Char → List Char
  | _, [] => []
  | 0, s => s
  | Nat.succ fuel, c :: rest =>
      if t ≠ [] ∧ t.isPrefixOf (c :: rest) then
        r ++ replaceAllAux t r fuel ((c :: rest).drop t.length)
      else c :: replaceAllAux t r fuel rest

/-- Go `strings.ReplaceAll s t r` for a non-empty pattern `t`.  (The Go
empty-pattern behaviour never arises: `sanitizeString` returns early on an
empty token.) -/
def replaceAll (t r : List Char) (s : List Char) : List Char :=
  replaceAllAux t r s.length s

/-- `git.sanitizeString`: replace every occurrence of the token by
`"***"`; an empty token leaves the text untouched. -/
def sanitizeString (s token : List Char) : List Char :=
  if token = [] then s else replaceAll token "***".data s

/-- The error message built by `git.Clone` when the subprocess fails:
`fmt.Errorf("git clone failed: %s", sanitizeString(stderr, token))`. -/
def cloneError (stderr token : List Char) : List Char :=
  "git clone failed: ".data ++ sanitizeString stderr token

/-- Whether `t` occurs as a contiguous substring of `s`. -/
def containsSub (t : List Char) : List Char → Bool
  | [] => t.isEmpty
  | c :: rest => t.isPrefixOf (c :: rest) || containsSub t rest

end Codeforge

/-! # Theorems -/

namespace Codeforge

theorem validate_none_iff (c n : TaskStatus) :
    ValidateTransition c n = none ↔ specAllowed c n = true := by
  by_cases h1 : c = StatusPending
  · subst h1
    rw [ValidateTransition, show validTransitions.lookup StatusPending
        = some [StatusCloning, StatusFailed] from rfl]
    simp [specAllowed, specAllowedPairs, StatusPending, StatusCloning,
      StatusFailed, StatusRunning, StatusCompleted,
      StatusAwaitingInstruction, StatusCreatingPR,
      StatusPRCreated, Prod.mk.injEq]
    tauto
  by_cases h2 : c = StatusCloning
  · subst h2
    rw [ValidateTransition, show validTransitions.lookup StatusCloning
        = some [StatusRunning, StatusFailed] from rfl]
    simp [specAllowed, specAllowedPairs, StatusPending, StatusCloning,
      StatusFailed, StatusRunning, StatusCompleted,
      StatusAwaitingInstruction, StatusCreatingPR,
      StatusPRCreated, Prod.mk.injEq]
    tauto
  by_cases h3 : c = StatusRunning
  · subst h3
    rw [ValidateTransition, show validTransitions.lookup StatusRunning
        = some [StatusCompleted, StatusFailed] from rfl]
    simp [specAllowed, specAllowedPairs, StatusPending, StatusCloning,
      StatusFailed, StatusRunning, StatusCompleted,
      StatusAwaitingInstruction, StatusCreatingPR,
      StatusPRCreated, Prod.mk.injEq]
    tauto
  by_cases h4 : c = StatusCompleted
  · subst h4
    rw [ValidateTransition, show validTransitions.lookup StatusCompleted
        = some [StatusAwaitingInstruction, StatusCreatingPR] from rfl]
    simp [specAllowed, specAllowedPairs, StatusPending, StatusCloning,
      StatusFailed, StatusRunning, StatusCompleted,
      StatusAwaitingInstruction, StatusCreatingPR,
      StatusPRCreated, Prod.mk.injEq]
    tauto
  by_cases h5 : c = StatusFailed
  · subst h5
    rw [ValidateTransition, show validTransitions.lookup StatusFailed
        = some [] from rfl]
    simp [specAllowed, specAllowedPairs, StatusPending, StatusCloning,
      StatusFailed, StatusRunning, StatusCompleted,
      StatusAwaitingInstruction, StatusCreatingPR,
      StatusPRCreated, Prod.mk.injEq]
  by_cases h6 : c = StatusAwaitingInstruction
  · subst h6
    rw [ValidateTransition, show validTransitions.lookup StatusAwaitingInstruction
        = some [StatusRunning, StatusFailed] from rfl]
    simp [specAllowed, specAllowedPairs, StatusPending, StatusCloning,
      StatusFailed, StatusRunning, StatusCompleted,
      StatusAwaitingInstruction, StatusCreatingPR,
      StatusPRCreated, Prod.mk.injEq]
    tauto
  by_cases h7 : c = StatusCreatingPR
  · subst h7
    rw [ValidateTransition, show validTransitions.lookup StatusCreatingPR
        = some [StatusPRCreated, StatusFailed] from rfl]
    simp [specAllowed, specAllowedPairs, StatusPending, StatusCloning,
      StatusFailed, StatusRunning, StatusCompleted,
      StatusAwaitingInstruction, StatusCreatingPR,
      StatusPRCreated, Prod.mk.injEq]
    tauto
  by_cases h8 : c = StatusPRCreated
  · subst h8
    rw [ValidateTransition, show validTransitions.lookup StatusPRCreated
        = some [StatusAwaitingInstruction, StatusCompleted] from rfl]
    simp [specAllowed, specAllowedPairs, StatusPending, StatusCloning,
      StatusFailed, StatusRunning, StatusCompleted,
      StatusAwaitingInstruction, StatusCreatingPR,
      StatusPRCreated, Prod.mk.injEq]
    tauto
  · simp only [StatusPending, StatusCloning, StatusFailed, StatusRunning,
      StatusCompleted, StatusAwaitingInstruction, StatusCreatingPR,
      StatusPRCreated] at h1 h2 h3 h4 h5 h6 h7 h8
    have e1 : (c == "pending") = false := beq_eq_false_iff_ne.mpr h1
    have e2 : (c == "cloning") = false := beq_eq_false_iff_ne.mpr h2
    have e3 : (c == "running") = false := beq_eq_false_iff_ne.mpr h3
    have e4 : (c == "completed") = false := beq_eq_false_iff_ne.mpr h4
    have e5 : (c == "failed") = false := beq_eq_false_iff_ne.mpr h5
    have e6 : (c == "awaiting_instruction") = false := beq_eq_false_iff_ne.mpr h6
    have e7 : (c == "creating_pr") = false := beq_eq_false_iff_ne.mpr h7
    have e8 : (c == "pr_created") = false := beq_eq_false_iff_ne.mpr h8
    have hlook : validTransitions.lookup c = none := by
      simp [validTransitions, List.lookup, StatusPending, StatusCloning,
        StatusFailed, StatusRunning, StatusCompleted,
        StatusAwaitingInstruction, StatusCreatingPR, StatusPRCreated,
        e1, e2, e3, e4, e5, e6, e7, e8]
    rw [ValidateTransition, hlook]
    simp [specAllowed, specAllowedPairs, StatusPending, StatusCloning,
      StatusFailed, StatusRunning, StatusCompleted,
      StatusAwaitingInstruction, StatusCreatingPR,
      StatusPRCreated, Prod.mk.injEq, h1, h2, h3, h4, h5, h6, h7, h8]

theorem validate_some_shape (c n : TaskStatus) (e : AppError)
    (h : ValidateTransition c n = some e) :
    e.status = 409 ∧ e.err = ErrInvalidTransition := by
  unfold ValidateTransition at h
  cases hl : validTransitions.lookup c with
  | none =>
      rw [hl] at h
      simp only [Option.some.injEq] at h
      subst h
      exact ⟨rfl, rfl⟩
  | some allowed =>
      rw [hl] at h
      by_cases hm : n ∈ allowed
      · simp [hm] at h
      · simp only [if_neg hm, Option.some.injEq] at h
        subst h
        exact ⟨rfl, rfl⟩

/-- C1: for every stored task record and every requested next status,
`UpdateStatus` succeeds exactly when the pair (current status, next status)
is allowed by the table pending→{cloning, failed}, cloning→{running,
failed}, running→{completed, failed}, completed→{awaiting_instruction,
creating_pr}, awaiting_instruction→{running, failed},
creating_pr→{pr_created, failed}, pr_created→{awaiting_instruction,
completed}, failed→{}; when the pair is not allowed it returns an
invalid-transition error carrying HTTP status 409 and leaves the stored
task record (status, timestamps, TTL) unchanged. -/
theorem C1_update_status_transition_table (r : TaskRecord) (next : TaskStatus)
    (stateTTL now : Nat) :
    ((UpdateStatus stateTTL now (some r) next).2 = none
      ↔ specAllowed r.status next = true)
    ∧ (specAllowed r.status next = false →
        (UpdateStatus stateTTL now (some r) next).1 = some r
        ∧ ∃ e, (UpdateStatus stateTTL now (some r) next).2 = some e
            ∧ e.status = 409 ∧ e.err = ErrInvalidTransition) := by
  constructor
  · cases hv : ValidateTransition r.status next with
    | none =>
        simp [UpdateStatus, hv]
        exact (validate_none_iff r.status next).mp hv
    | some e =>
        simp only [UpdateStatus, hv]
        constructor
        · intro h
          exact absurd h (by simp)
        · intro hs
          have := (validate_none_iff r.status next).mpr hs
          rw [hv] at this
          exact Option.noConfusion this
  · intro hs
    cases hv : ValidateTransition r.status next with
    | none =>
        have := (validate_none_iff r.status next).mp hv
        rw [this] at hs
        exact absurd hs (by simp)
    | some e =>
        refine ⟨by simp [UpdateStatus, hv], e, by simp [UpdateStatus, hv], ?_, ?_⟩
        · exact (validate_some_shape r.status next e hv).1
        · exact (validate_some_shape r.status next e hv).2

/-- C1 witness: at the concrete input pending → running (not allowed by the
table), `UpdateStatus` leaves the record unchanged and reports a 409
invalid-transition error. -/
theorem C1_update_status_transition_table_witness :
    specAllowed "pending" "running" = false
    ∧ (UpdateStatus 9 1
        (some { status := "pending", updatedAt := 0, startedAt := none,
                finishedAt := none, ttl := none }) "running").1
      = some { status := "pending", updatedAt := 0, startedAt := none,
               finishedAt := none, ttl := none }
    ∧ ((UpdateStatus 9 1
        (some { status := "cloning", updatedAt := 0, startedAt := none,
                finishedAt := none, ttl := none }) "running").2 = none
      ↔ specAllowed "cloning" "running" = true) :=
  ⟨by decide,
   ((C1_update_status_transition_table
      { status := "pending", updatedAt := 0, startedAt := none,
        finishedAt := none, ttl := none } "running" 9 1).2 (by decide)).1,
   (C1_update_status_transition_table
      { status := "cloning", updatedAt := 0, startedAt := none,
        finishedAt := none, ttl := none } "running" 9 1).1⟩

/-- C2: the claim's conclusion that a not-finished task's state record has
no expiry fails on the code.  Evaluating the `UpdateStatus` chain pending →
cloning → running → completed → awaiting_instruction → running (the
follow-up path after a completed first iteration) shows every transition
accepted, the final status `running` — not finished — while the state key
still carries the TTL applied at the `completed` transition: `UpdateStatus`
sets a TTL when the new status is finished but never clears one
afterwards. -/
theorem C2_ttl_survives_follow_up :
    followUpRunRecord
      = (some { status := StatusRunning, updatedAt := 5, startedAt := some 5,
                finishedAt := some 3, ttl := some 7 }, none)
    ∧ IsFinished StatusRunning = false := by
  exact ⟨rfl, rfl⟩

theorem counts_foldl (ls : List String) (acc : Counts) :
    (ls.foldl classifyLine acc).created
        = acc.created + (ls.filter countedCreated).length
    ∧ (ls.foldl classifyLine acc).deleted
        = acc.deleted + (ls.filter countedDeleted).length
    ∧ (ls.foldl classifyLine acc).modified
        = acc.modified + (ls.filter countedModified).length := by
  induction ls generalizing acc with
  | nil => simp
  | cons l rest ih =>
    simp only [List.foldl_cons, List.filter_cons]
    by_cases hlen : l.length < 3
    · simp [classifyLine, hlen, countedCreated, countedDeleted,
        countedModified, ih]
    · by_cases hc : l.take 2 = "??" ∨ l.take 2 = "A " ∨ l.take 2 = " A"
      · have hcl : classifyLine acc l = { acc with created := acc.created + 1 } := by
          simp [classifyLine, hlen, hc]
        rcases hc with h | h | h <;>
          simp [hcl, hlen, h, countedCreated, countedDeleted,
            countedModified, amendedCreatedCode, claimCreatedCode,
            claimDeletedCode, claimModifiedCode, ih] <;>
          omega
      · by_cases hd : l.take 2 = " D" ∨ l.take 2 = "D "
        · have hcl : classifyLine acc l = { acc with deleted := acc.deleted + 1 } := by
            simp [classifyLine, hlen, hc, hd]
          rcases hd with h | h <;>
            simp [hcl, hlen, h, countedCreated, countedDeleted,
              countedModified, amendedCreatedCode, claimCreatedCode,
              claimDeletedCode, claimModifiedCode, ih] <;>
            omega
        · by_cases hm : l.take 2 = " M" ∨ l.take 2 = "M " ∨ l.take 2 = "MM"
          · have hcl : classifyLine acc l = { acc with modified := acc.modified + 1 } := by
              simp [classifyLine, hlen, hc, hd, hm]
            rcases hm with h | h | h <;>
              simp [hcl, hlen, h, countedCreated, countedDeleted,
                countedModified, amendedCreatedCode, claimCreatedCode,
                claimDeletedCode, claimModifiedCode, ih] <;>
              omega
          · by_cases ham : l.take 2 = "AM"
            · have hcl : classifyLine acc l = { acc with created := acc.created + 1 } := by
                simp [classifyLine, hlen, hc, hd, hm, ham]
              simp [hcl, hlen, ham, countedCreated, countedDeleted,
                countedModified, amendedCreatedCode, claimCreatedCode,
                claimDeletedCode, claimModifiedCode, ih]
              omega
            · by_cases hr : l.take 2 = "RM" ∨ l.take 2 = "R "
              · have hcl : classifyLine acc l = { acc with modified := acc.modified + 1 } := by
                  simp [classifyLine, hlen, hc, hd, hm, ham, hr]
                rcases hr with h | h <;>
                  simp [hcl, hlen, h, countedCreated, countedDeleted,
                    countedModified, amendedCreatedCode, claimCreatedCode,
                    claimDeletedCode, claimModifiedCode, ih] <;>
                  omega
              · have hcl : classifyLine acc l = acc := by
                  simp [classifyLine, hlen, hc, hd, hm, ham, hr]
                push_neg at hc hd hm hr
                simp [hcl, hlen, countedCreated, countedDeleted,
                  countedModified, amendedCreatedCode, claimCreatedCode,
                  claimDeletedCode, claimModifiedCode, hc.1, hc.2.1, hc.2.2,
                  hd.1, hd.2, hm.1, hm.2.1, hm.2.2, ham, hr.1, hr.2, ih]

/-- C4 counterexample: the claim says every line other than the listed
codes contributes to no counter, but the source counts the code `AM`
("added then modified") as a created file: on the single porcelain line
`"AM x"` the code yields `files_created = 1` while the claim's three code
sets all exclude `AM`. -/
theorem C4_porcelain_am_counterexample :
    (statusCounts ["AM x"]).created = 1
    ∧ claimCreatedCode "AM" = false
    ∧ claimDeletedCode "AM" = false
    ∧ claimModifiedCode "AM" = false := by decide

/-- C4 as amended: for every porcelain status output, `CalculateChanges`
counts as files_created exactly the lines (of at least 3 bytes) whose
two-character code is `??`, `A `, ` A` or `AM`, as files_deleted exactly
those with ` D` or `D `, and as files_modified exactly those with ` M`,
`M `, `MM`, `R ` or `RM`, every other line contributing to no counter; and
when the status and shortstat outputs are empty the resulting summary has
all counters zero and diff stats "+0 -0". -/
theorem C4_porcelain_counts_amended (regexPart : String → Nat × Nat)
    (statusLines : List String) :
    (statusCounts statusLines).created
        = (statusLines.filter countedCreated).length
    ∧ (statusCounts statusLines).deleted
        = (statusLines.filter countedDeleted).length
    ∧ (statusCounts statusLines).modified
        = (statusLines.filter countedModified).length
    ∧ CalculateChanges regexPart [""] "" ""
        = { filesModified := 0, filesCreated := 0, filesDeleted := 0,
            diffStats := "+0 -0" } := by
  have hf := counts_foldl statusLines
      { modified := 0, created := 0, deleted := 0 }
  refine ⟨?_, ?_, ?_, ?_⟩
  · simpa [statusCounts] using hf.1
  · simpa [statusCounts] using hf.2.1
  · simpa [statusCounts] using hf.2.2
  · have hp : parseShortStat regexPart "" = (0, 0) := by
      rw [parseShortStat, if_pos (by decide)]
    have hs : statusCounts [""] = { modified := 0, created := 0, deleted := 0 } := by
      decide
    simp [CalculateChanges, hp, hs]
    decide

/-- C3: the claim (and the spec, and the code's own comments) require that
when the 50,000-character context budget is exceeded the OLDEST iteration
summaries are the ones dropped.  Evaluating `buildPrompt` on two stored
iterations — the first (oldest) whose entry alone exceeds the budget, the
second (newest) tiny — shows the code does the opposite: walking
oldest-first it hits the budget at the first entry, emits the truncation
note and breaks, dropping the NEWEST iteration's summary (which fits the
budget comfortably, as the second conjunct shows) while keeping none. -/
theorem C3_truncation_drops_newest :
    buildPrompt
        [ { number := 1, prompt := hugePrompt, result := "r1", status := "completed" },
          { number := 2, prompt := "p2", result := "r2", status := "completed" } ]
        2 "do more"
      = "## Previous iterations on this codebase:\n\n"
        ++ "(earlier iterations truncated for context limits)\n\n"
        ++ "## Current instruction:\n\n" ++ "do more"
    ∧ (formatEntry { number := 2, prompt := "p2", result := "r2", status := "completed" }).length ≤ defaultMaxContextChars := by
  have hhuge : hugePrompt.length = 50000 := by
    rw [hugePrompt, String.mk_length, List.length_replicate]
  have hlen1 : (formatEntry { number := 1, prompt := hugePrompt, result := "r1", status := "completed" }).length > defaultMaxContextChars := by
    simp only [formatEntry, String.length_append, hhuge, defaultMaxContextChars,
      show ("### Iteration ").length = 14 from by decide]
    omega
  constructor
  · have hloop : contextLoop 0
        [ { number := 1, prompt := hugePrompt, result := "r1", status := "completed" },
          { number := 2, prompt := "p2", result := "r2", status := "completed" } ]
        = ([], true) := by
      simp only [contextLoop]
      rw [if_pos (by omega)]
    simp [buildPrompt, hloop, String.join, String.append_empty]
  · decide

theorem string_foldl_append (l : List String) (s : String) :
    l.foldl (· ++ ·) s = s ++ l.foldl (· ++ ·) "" := by
  induction l generalizing s with
  | nil => simp [String.append_empty]
  | cons a rest ih =>
    simp only [List.foldl_cons]
    rw [ih (s ++ a), ih ("" ++ a)]
    have : ("" : String) ++ a = a := rfl
    rw [this, String.append_assoc]

theorem string_join_cons (a : String) (l : List String) :
    String.join (a :: l) = a ++ String.join l := by
  simp only [String.join, List.foldl_cons]
  rw [string_foldl_append]
  have : ("" : String) ++ a = a := rfl
  rw [this]

theorem assistantFold_eq_spec (content : List ContentBlock) :
    assistantFoldText content = specAssistantText content := by
  suffices h : ∀ sb, content.foldl
      (fun sb c => if c.type = "text" ∧ c.text ≠ "" then sb ++ c.text else sb) sb
      = sb ++ specAssistantText content by
    have := h ""
    simpa [assistantFoldText] using this
  induction content with
  | nil => intro sb; simp [specAssistantText, String.join, String.append_empty]
  | cons c rest ih =>
    intro sb
    simp only [List.foldl_cons]
    by_cases ht : c.type = "text"
    · by_cases he : c.text = ""
      · simp only [ht, he, ne_eq, not_true_eq_false, and_false, if_false]
        rw [ih sb]
        simp [specAssistantText, List.filter_cons, ht, he, string_join_cons]
      · simp only [ht, he, ne_eq, not_false_eq_true, and_true, true_and, if_true, if_pos]
        rw [ih (sb ++ c.text)]
        simp [specAssistantText, List.filter_cons, ht, string_join_cons,
          String.append_assoc]
    · simp only [ht, false_and, if_false]
      rw [ih sb]
      simp [specAssistantText, List.filter_cons, ht]

theorem getLast?_getD_cons {α : Type} (x d : α) (xs : List α) :
    ((x :: xs).getLast?).getD d = (xs.getLast?).getD x := by
  cases xs with
  | nil => rfl
  | cons y ys =>
    have hne : (y :: ys).getLast? ≠ none := by
      simp [List.getLast?_eq_none_iff]
    obtain ⟨v, hv⟩ := Option.ne_none_iff_exists'.mp hne
    simp [List.getLast?_cons_cons, hv]

theorem nonresult_extract (e : StreamEvent) (h : isResultEvent e = false) :
    (extractStreamData e).resultText = ""
    ∧ (extractStreamData e).inputTokens = 0
    ∧ (extractStreamData e).outputTokens = 0 := by
  cases e <;> simp_all [isResultEvent, extractStreamData]

theorem runFold_result_const (l : List StreamEvent) (acc : RunAcc)
    (h : ∀ e ∈ l, isResultEvent e = false) :
    ((l.foldl runStep acc).resultText = acc.resultText
    ∧ (l.foldl runStep acc).inputTokens = acc.inputTokens)
    ∧ (l.foldl runStep acc).outputTokens = acc.outputTokens := by
  induction l generalizing acc with
  | nil => simp
  | cons e rest ih =>
    have he := nonresult_extract e (h e (List.mem_cons_self e rest))
    have hrest : ∀ x ∈ rest, isResultEvent x = false := fun x hx =>
      h x (List.mem_cons_of_mem e hx)
    simp only [List.foldl_cons]
    have step : (runStep acc e).resultText = acc.resultText
        ∧ (runStep acc e).inputTokens = acc.inputTokens
        ∧ (runStep acc e).outputTokens = acc.outputTokens := by
      simp [runStep, he.1, he.2.1, he.2.2]
    rcases ih (runStep acc e) hrest with ⟨⟨h1, h2⟩, h3⟩
    exact ⟨⟨h1.trans step.1, h2.trans step.2.1⟩, h3.trans step.2.2⟩

theorem runFold_last (l : List StreamEvent) (acc : RunAcc) :
    (l.foldl runStep acc).lastAssistantText
      = ((l.filterMap assistantTextOfEvent).getLast?).getD acc.lastAssistantText := by
  induction l generalizing acc with
  | nil => simp
  | cons e rest ih =>
    simp only [List.foldl_cons]
    cases e with
    | result r i o =>
        rw [ih]
        have hstep : (runStep acc (StreamEvent.result r i o)).lastAssistantText
            = acc.lastAssistantText := by
          simp [runStep, extractStreamData]
        rw [hstep]
        simp [List.filterMap_cons, assistantTextOfEvent]
    | other =>
        rw [ih]
        have hstep : (runStep acc StreamEvent.other).lastAssistantText
            = acc.lastAssistantText := by
          simp [runStep, extractStreamData]
        rw [hstep]
        simp [List.filterMap_cons, assistantTextOfEvent]
    | assistant content =>
        rw [ih]
        by_cases ht : specAssistantText content = ""
        · have hstep : (runStep acc (StreamEvent.assistant content)).lastAssistantText
              = acc.lastAssistantText := by
            simp [runStep, extractStreamData, assistantFold_eq_spec, ht]
          rw [hstep]
          simp [List.filterMap_cons, assistantTextOfEvent, ht]
        · have hstep : (runStep acc (StreamEvent.assistant content)).lastAssistantText
              = specAssistantText content := by
            simp [runStep, extractStreamData, assistantFold_eq_spec, ht]
          rw [hstep]
          simp only [List.filterMap_cons, assistantTextOfEvent]
          rw [if_neg ht, getLast?_getD_cons]

/-- C5: for every stream of agent stdout lines containing exactly one
`result`-typed event, the run's output text equals that event's `result`
field when it is non-empty, and otherwise equals the concatenation of the
`text` fields of all `content[].type == "text"` entries of the latest
assistant event that contained text; the input and output token counts are
read from the result event's `usage.input_tokens` / `usage.output_tokens`. -/
theorem C5_stream_result_extraction (pre post : List StreamEvent) (r : String)
    (i o : Nat)
    (hpre : ∀ e ∈ pre, isResultEvent e = false)
    (hpost : ∀ e ∈ post, isResultEvent e = false) :
    (r ≠ "" → runOutput (pre ++ StreamEvent.result r i o :: post) = r)
    ∧ (r = "" → runOutput (pre ++ StreamEvent.result r i o :: post)
        = latestAssistantText (pre ++ StreamEvent.result r i o :: post))
    ∧ (runFold (pre ++ StreamEvent.result r i o :: post)).inputTokens = i
    ∧ (runFold (pre ++ StreamEvent.result r i o :: post)).outputTokens = o := by
  have hsplit : runFold (pre ++ StreamEvent.result r i o :: post)
      = post.foldl runStep
          (runStep (pre.foldl runStep
            { resultText := "", lastAssistantText := "",
              inputTokens := 0, outputTokens := 0 }) (StreamEvent.result r i o)) := by
    simp [runFold, List.foldl_append]
  set accPre := pre.foldl runStep
      { resultText := "", lastAssistantText := "",
        inputTokens := 0, outputTokens := 0 } with haccPre
  have hpreC : accPre.resultText = "" ∧ accPre.inputTokens = 0
      ∧ accPre.outputTokens = 0 := by
    have h := runFold_result_const pre
      { resultText := "", lastAssistantText := "",
        inputTokens := 0, outputTokens := 0 } hpre
    rw [← haccPre] at h
    exact ⟨h.1.1, h.1.2, h.2⟩
  have hmid : (runStep accPre (StreamEvent.result r i o)).resultText = r
      ∧ (runStep accPre (StreamEvent.result r i o)).inputTokens = i
      ∧ (runStep accPre (StreamEvent.result r i o)).outputTokens = o := by
    by_cases hr : r = ""
    · simp [runStep, extractStreamData, hr, hpreC.1, hpreC.2.1, hpreC.2.2]
    · simp [runStep, extractStreamData, hr, hpreC.2.1, hpreC.2.2]
  have hpostC := runFold_result_const post
      (runStep accPre (StreamEvent.result r i o)) hpost
  have hfinal : (runFold (pre ++ StreamEvent.result r i o :: post)).resultText = r
      ∧ (runFold (pre ++ StreamEvent.result r i o :: post)).inputTokens = i
      ∧ (runFold (pre ++ StreamEvent.result r i o :: post)).outputTokens = o := by
    rw [hsplit]
    exact ⟨hpostC.1.1.trans hmid.1, hpostC.1.2.trans hmid.2.1,
      hpostC.2.trans hmid.2.2⟩
  refine ⟨?_, ?_, hfinal.2.1, hfinal.2.2⟩
  · intro hr
    simp [runOutput, hfinal.1, hr]
  · intro hr
    subst hr
    simp only [runOutput, hfinal.1, if_pos rfl]
    exact runFold_last (pre ++ StreamEvent.result "" i o :: post) _

/-- C5 witness: an assistant event with text "hi" followed by an
empty-result event (the error_during_execution shape, usage 3/4 tokens):
the output falls back to the latest assistant text and the token counts
come from the result event. -/
theorem C5_stream_result_extraction_witness :
    runOutput [StreamEvent.assistant [{ type := "text", text := "hi" }],
        StreamEvent.result "" 3 4]
      = latestAssistantText [StreamEvent.assistant [{ type := "text", text := "hi" }],
        StreamEvent.result "" 3 4]
    ∧ (runFold [StreamEvent.assistant [{ type := "text", text := "hi" }],
        StreamEvent.result "" 3 4]).inputTokens = 3
    ∧ (runFold [StreamEvent.assistant [{ type := "text", text := "hi" }],
        StreamEvent.result "" 3 4]).outputTokens = 4 := by
  have h := C5_stream_result_extraction
      [StreamEvent.assistant [{ type := "text", text := "hi" }]] [] "" 3 4
      (by decide) (by decide)
  exact ⟨h.2.1 rfl, h.2.2.1, h.2.2.2⟩

/-- C6: for every plaintext (the empty one included) and every nonce drawn
during encryption (the Go code always draws `nonceSize` bytes),
`Decrypt (Encrypt p) = p`, for any AEAD and base64 codec satisfying their
library contracts; in particular the access token encrypted at task
creation is recovered verbatim when the persisted hash is decrypted. -/
theorem C6_encrypt_decrypt_roundtrip (A : AEAD) (B : ByteEncoding)
    (nonce pt : List Nat) (hn : nonce.length = A.nonceSize) :
    Decrypt A B (Encrypt A B nonce pt) = Except.ok pt := by
  by_cases hpt : pt = []
  · subst hpt
    simp [Encrypt, Decrypt]
  · have hct : Encrypt A B nonce pt = B.encode (nonce ++ A.sealOp nonce pt) := by
      simp [Encrypt, hpt]
    have hne : ¬ B.encode (nonce ++ A.sealOp nonce pt) = [] := by
      intro h
      rw [B.encode_empty] at h
      have hnil : nonce = [] := (List.append_eq_nil.mp h).1
      rw [hnil] at hn
      have hpos := A.nonceSizePos
      simp at hn
      omega
    rw [hct]
    simp only [Decrypt, if_neg hne, B.decode_encode]
    have hlen : ¬ (nonce ++ A.sealOp nonce pt).length < A.nonceSize := by
      rw [List.length_append, hn]
      omega
    rw [if_neg hlen]
    have htake : (nonce ++ A.sealOp nonce pt).take A.nonceSize = nonce := by
      rw [← hn, List.take_left]
    have hdrop : (nonce ++ A.sealOp nonce pt).drop A.nonceSize = A.sealOp nonce pt := by
      rw [← hn, List.drop_left]
    rw [htake, hdrop, A.open_seal]

/-- C6 witness: round trip at a concrete byte string and nonce, over
concrete lawful cipher and codec instances. -/
theorem C6_encrypt_decrypt_roundtrip_witness :
    Decrypt plainAEAD shiftEncoding
        (Encrypt plainAEAD shiftEncoding [0] [7, 8]) = Except.ok [7, 8] :=
  C6_encrypt_decrypt_roundtrip plainAEAD shiftEncoding [0] [7, 8] rfl

theorem liveLoop_actions (evs : List LoopEvent) (a : SSEAction)
    (h : a ∈ liveLoop evs) :
    a = SSEAction.writeKeepalive ∨ (∃ p, a = SSEAction.writeLive p)
    ∨ a = SSEAction.writeDone ∨ a = SSEAction.writeTimeout
    ∨ a = SSEAction.close := by
  induction evs with
  | nil =>
      simp [liveLoop] at h
      tauto
  | cons e rest ih =>
      cases e with
      | keepaliveTick =>
          simp [liveLoop] at h
          rcases h with h | h
          · tauto
          · exact ih h
      | message fromDone p =>
          by_cases hd : fromDone
          · subst hd
            simp [liveLoop] at h
            rcases h with h | h <;> tauto
          · simp [liveLoop, hd] at h
            rcases h with h | h
            · subst h; tauto
            · exact ih h
      | clientDisconnect =>
          simp [liveLoop] at h
          tauto
      | deadlineReached =>
          simp [liveLoop] at h
          rcases h with h | h <;> tauto

/-- C7: on the stream endpoint, for a task not in a finished state the
handler's action trace subscribes (to the live and done channels) strictly
before reading the history list, and writes the connected event and every
replayed history entry strictly before any live message; for a finished
task the trace is exactly connected, the full history, a named done event
and the close — with no subscription and no keepalives. -/
theorem C7_sse_stream_ordering (history : List String) (events : List LoopEvent) :
    (∀ i j, (streamTrace false history events).get? i = some SSEAction.subscribe →
        (streamTrace false history events).get? j = some SSEAction.readHistory →
        i < j)
    ∧ (∀ i j a p, (streamTrace false history events).get? i = some a →
        (a = SSEAction.writeConnected ∨ (∃ m, a = SSEAction.writeHistoryEntry m)) →
        (streamTrace false history events).get? j = some (SSEAction.writeLive p) →
        i < j)
    ∧ SSEAction.subscribe ∉ streamTrace true history events
    ∧ SSEAction.writeKeepalive ∉ streamTrace true history events
    ∧ streamTrace true history events
      = [SSEAction.writeConnected, SSEAction.readHistory]
        ++ history.map SSEAction.writeHistoryEntry
        ++ [SSEAction.writeDone, SSEAction.close] := by
  have htr : streamTrace false history events
      = ([SSEAction.subscribe, SSEAction.writeConnected, SSEAction.readHistory]
          ++ history.map SSEAction.writeHistoryEntry) ++ liveLoop events := by
    simp [streamTrace]
  refine ⟨?_, ?_, ?_, ?_, by simp [streamTrace]⟩
  · intro i j hi hj
    have hsub_notin_rest : SSEAction.subscribe ∉
        ([SSEAction.writeConnected, SSEAction.readHistory]
          ++ history.map SSEAction.writeHistoryEntry) ++ liveLoop events := by
      intro hmem
      simp only [List.mem_append] at hmem
      rcases hmem with hmem | hmem
      · simp at hmem
      · rcases liveLoop_actions events _ hmem with h | ⟨p, h⟩ | h | h | h <;>
          exact SSEAction.noConfusion h
    have hi0 : i = 0 := by
      by_contra hne
      obtain ⟨k, rfl⟩ : ∃ k, i = k + 1 := ⟨i - 1, by omega⟩
      rw [htr] at hi
      have : (([SSEAction.writeConnected, SSEAction.readHistory]
          ++ history.map SSEAction.writeHistoryEntry) ++ liveLoop events).get? k
          = some SSEAction.subscribe := by
        simpa [List.append_assoc] using hi
      exact hsub_notin_rest (List.get?_mem this)
    have hj0 : j ≠ 0 := by
      intro hj0
      subst hj0
      rw [htr] at hj
      simp at hj
    omega
  · intro i j a p hi ha hj
    set P := [SSEAction.subscribe, SSEAction.writeConnected, SSEAction.readHistory]
        ++ history.map SSEAction.writeHistoryEntry with hP
    have hjge : P.length ≤ j := by
      by_contra hlt
      push_neg at hlt
      rw [htr, List.get?_append hlt] at hj
      have hmem : SSEAction.writeLive p ∈ P := List.get?_mem hj
      rw [hP] at hmem
      simp at hmem
    have hilt : i < P.length := by
      by_contra hge
      push_neg at hge
      rw [htr, List.get?_append_right hge] at hi
      have hmem := List.get?_mem hi
      rcases ha with ha | ⟨m, ha⟩ <;> subst ha <;>
        rcases liveLoop_actions events _ hmem with h | ⟨q, h⟩ | h | h | h <;>
          exact SSEAction.noConfusion h
    omega
  · simp [streamTrace]
  · simp [streamTrace]

/-- C7 witness: with one history entry and one live message, the subscribe
action (index 0) precedes the history read (index 2), and the
finished-task trace contains no subscription. -/
theorem C7_sse_stream_ordering_witness :
    (0 : Nat) < 2
    ∧ SSEAction.subscribe ∉ streamTrace true ["h1"] [LoopEvent.message false "x"] :=
  ⟨(C7_sse_stream_ordering ["h1"] [LoopEvent.message false "x"]).1 0 2
      (by decide) (by decide),
   (C7_sse_stream_ordering ["h1"] [LoopEvent.message false "x"]).2.2.1⟩

theorem sendLoop_attempts_le (out : Nat → AttemptOutcome) (base : Nat) :
    ∀ fuel attempt, (sendLoop out base attempt fuel).attempts ≤ fuel := by
  intro fuel
  induction fuel with
  | zero => intro attempt; simp [sendLoop]
  | succ n ih =>
      intro attempt
      simp only [sendLoop]
      by_cases h : is2xx (out attempt) = true
      · simp [h]
      · simp only [Bool.not_eq_true] at h
        simp [h]
        exact ih (attempt + 1)

theorem sendLoop_waits (out : Nat → AttemptOutcome) (base : Nat) :
    ∀ fuel attempt, 1 ≤ attempt →
      (sendLoop out base attempt fuel).waits
        = (List.range (sendLoop out base attempt fuel).attempts).map
            (fun k => 5 ^ (attempt - 1 + k) * base) := by
  intro fuel
  induction fuel with
  | zero => intro attempt _; simp [sendLoop]
  | succ n ih =>
      intro attempt ha
      simp only [sendLoop]
      by_cases h : is2xx (out attempt) = true
      · have hpos : attempt > 0 := by omega
        simp [h, hpos, List.range_succ_eq_map]
      · simp only [Bool.not_eq_true] at h
        simp only [h, if_neg, Bool.false_eq_true, if_false, if_pos (by omega : attempt > 0)]
        rw [ih (attempt + 1) (by omega)]
        rw [List.range_succ_eq_map]
        simp only [List.map_cons, List.map_map, List.singleton_append, Function.comp_def]
        have h2 : List.map (fun k => 5 ^ (attempt + 1 - 1 + k) * base)
              (List.range (sendLoop out base (attempt + 1) n).attempts)
            = List.map (fun x => 5 ^ (attempt - 1 + x.succ) * base)
              (List.range (sendLoop out base (attempt + 1) n).attempts) :=
          List.map_congr_left (fun k _ => by
            rw [show attempt + 1 - 1 + k = attempt - 1 + k.succ from by omega])
        rw [h2]
        simp

theorem sendLoop_first_success (out : Nat → AttemptOutcome) (base : Nat) :
    ∀ fuel attempt k, k < fuel → is2xx (out (attempt + k)) = true →
      (∀ j < k, is2xx (out (attempt + j)) = false) →
      (sendLoop out base attempt fuel).attempts = k + 1
      ∧ (sendLoop out base attempt fuel).delivered = true := by
  intro fuel
  induction fuel with
  | zero => intro attempt k hk; omega
  | succ n ih =>
      intro attempt k hk hsucc hfirst
      cases k with
      | zero =>
          simp only [Nat.add_zero] at hsucc
          simp [sendLoop, hsucc]
      | succ m =>
          have h0 : is2xx (out attempt) = false := by
            have := hfirst 0 (by omega)
            simpa using this
          simp only [sendLoop, h0, Bool.false_eq_true, if_false]
          have ihm := ih (attempt + 1) m (by omega)
            (by rw [show attempt + 1 + m = attempt + (m + 1) from by omega]; exact hsucc)
            (by
              intro j hj
              rw [show attempt + 1 + j = attempt + (j + 1) from by omega]
              exact hfirst (j + 1) (by omega))
          constructor
          · simp [ihm.1]
          · simp [ihm.2]

theorem sendLoop_all_fail (out : Nat → AttemptOutcome) (base : Nat) :
    ∀ fuel attempt, (∀ k < fuel, is2xx (out (attempt + k)) = false) →
      (sendLoop out base attempt fuel).attempts = fuel
      ∧ (sendLoop out base attempt fuel).delivered = false := by
  intro fuel
  induction fuel with
  | zero => intro attempt _; simp [sendLoop]
  | succ n ih =>
      intro attempt hall
      have h0 : is2xx (out attempt) = false := by
        have := hall 0 (by omega)
        simpa using this
      simp only [sendLoop, h0, Bool.false_eq_true, if_false]
      have ihn := ih (attempt + 1) (by
        intro k hk
        rw [show attempt + 1 + k = attempt + (k + 1) from by omega]
        exact hall (k + 1) (by omega))
      constructor
      · simp [ihn.1]
      · simp [ihn.2]

/-- C8: webhook delivery performs at most `maxRetries + 1` HTTP attempts;
before the k-th retry (k ≥ 1) it waits `baseDelay * 5^(k-1)`, giving
delays of 5s, 25s, 125s for the configured base delay of 5s; it stops at
the first response with status in [200, 300) and returns an error exactly
when every attempt has failed or received a non-2xx response. -/
theorem C8_webhook_retry_policy (maxRetries base : Nat)
    (out : Nat → AttemptOutcome) :
    (Send maxRetries base out).attempts ≤ maxRetries + 1
    ∧ (Send maxRetries base out).waits
        = (List.range ((Send maxRetries base out).attempts - 1)).map
            (fun k => 5 ^ k * base)
    ∧ (∀ k, k ≤ maxRetries → is2xx (out k) = true →
        (∀ j, j < k → is2xx (out j) = false) →
        (Send maxRetries base out).delivered = true
        ∧ (Send maxRetries base out).attempts = k + 1)
    ∧ ((Send maxRetries base out).delivered = false
        ↔ (∀ k, k ≤ maxRetries → is2xx (out k) = false))
    ∧ (Send 3 5 (fun _ => AttemptOutcome.response 500)).waits = [5, 25, 125] := by
  refine ⟨sendLoop_attempts_le out base (maxRetries + 1) 0, ?_, ?_, ?_, by decide⟩
  · by_cases h0 : is2xx (out 0) = true
    · simp [Send, sendLoop, h0]
    · have h0' : is2xx (out 0) = false := by simpa using h0
      simp only [Send, sendLoop, h0', Bool.false_eq_true, if_false,
        Nat.lt_irrefl, List.nil_append]
      rw [sendLoop_waits out base maxRetries 1 (by omega)]
      simp [Nat.add_sub_cancel]
  · intro k hk hsucc hfirst
    have h := sendLoop_first_success out base (maxRetries + 1) 0 k (by omega)
      (by simpa using hsucc)
      (by intro j hj; simpa using hfirst j hj)
    exact ⟨h.2, h.1⟩
  · constructor
    · intro hdel k hk
      by_contra hne
      have hsucc : is2xx (out k) = true := by
        cases h : is2xx (out k)
        · exact absurd h hne
        · rfl
      have hex : ∃ m, is2xx (out m) = true := ⟨k, hsucc⟩
      have hmin := Nat.find_spec hex
      have hle : Nat.find hex ≤ k := Nat.find_le hsucc
      have hfirst : ∀ j, j < Nat.find hex → is2xx (out j) = false := by
        intro j hj
        have := Nat.find_min hex hj
        cases h : is2xx (out j)
        · rfl
        · exact absurd h this
      have h := sendLoop_first_success out base (maxRetries + 1) 0 (Nat.find hex)
        (by omega) (by simpa using hmin) (by intro j hj; simpa using hfirst j hj)
      rw [show Send maxRetries base out = sendLoop out base 0 (maxRetries + 1) from rfl]
        at hdel
      rw [h.2] at hdel
      exact Bool.noConfusion hdel
    · intro hall
      have h := sendLoop_all_fail out base (maxRetries + 1) 0
        (by intro m hm; simpa using hall m (by omega))
      exact h.2

/-- C8 witness: with transport errors on attempts 0 and 1 and a 204 on
attempt 2 (maxRetries 3, base delay 5), delivery succeeds after exactly
three attempts. -/
theorem C8_webhook_retry_policy_witness :
    (Send 3 5 (fun k => if k = 2 then AttemptOutcome.response 204
        else AttemptOutcome.netError)).delivered = true
    ∧ (Send 3 5 (fun k => if k = 2 then AttemptOutcome.response 204
        else AttemptOutcome.netError)).attempts = 3 :=
  (C8_webhook_retry_policy 3 5
      (fun k => if k = 2 then AttemptOutcome.response 204
        else AttemptOutcome.netError)).2.2.1 2
    (by decide) (by decide) (by decide)

/-- C9: a request whose Authorization header does not begin with
`"Bearer "` (a missing header reaching the middleware as the empty
string) is forwarded to the next handler without the sliding-window
counter being read or updated; only requests presenting a bearer token can
be rejected with 429. -/
theorem C9_rate_limit_bearer_only (auth : String) (allowResult : Bool) :
    (¬ "Bearer ".data.isPrefixOf auth.data = true →
      rateLimitMiddleware auth allowResult = MWOutcome.forwarded false)
    ∧ (rateLimitMiddleware auth allowResult = MWOutcome.rejected429 →
        "Bearer ".data.isPrefixOf auth.data = true ∧ extractClientID auth ≠ "") := by
  constructor
  · intro h
    simp [rateLimitMiddleware, extractClientID, h]
  · intro hrej
    by_cases hpre : "Bearer ".data.isPrefixOf auth.data = true
    · refine ⟨hpre, ?_⟩
      intro hid
      simp [rateLimitMiddleware, hid] at hrej
    · have : rateLimitMiddleware auth allowResult = MWOutcome.forwarded false := by
        simp [rateLimitMiddleware, extractClientID, hpre]
      rw [this] at hrej
      exact MWOutcome.noConfusion hrej

/-- C9 witness: a request with a non-bearer Authorization header is
forwarded without touching the counter, even when the window is
exhausted. -/
theorem C9_rate_limit_bearer_only_witness :
    rateLimitMiddleware "Token abc" false = MWOutcome.forwarded false :=
  (C9_rate_limit_bearer_only "Token abc" false).1 (by decide)

theorem noStar_prefix_replaceAllAux (t : List Char) :
    ∀ fuel s x, s.length ≤ fuel → x ≠ [] → '*' ∉ x →
      x.isPrefixOf (replaceAllAux t "***".data fuel s) = true →
      x.isPrefixOf s = true := by
  intro fuel
  induction fuel with
  | zero =>
      intro s x hf hx hstar hpre
      cases s with
      | nil =>
          cases x with
          | nil => exact absurd rfl hx
          | cons y ys => simp [replaceAllAux, List.isPrefixOf] at hpre
      | cons c rest => simp at hf
  | succ n ih =>
      intro s x hf hx hstar hpre
      cases s with
      | nil =>
          cases x with
          | nil => exact absurd rfl hx
          | cons y ys => simp [replaceAllAux, List.isPrefixOf] at hpre
      | cons c rest =>
          cases x with
          | nil => exact absurd rfl hx
          | cons y ys =>
              simp only [replaceAllAux] at hpre
              by_cases hcond : t ≠ [] ∧ t.isPrefixOf (c :: rest) = true
              · rw [if_pos hcond] at hpre
                have hy : y ≠ '*' := fun h => hstar (h ▸ List.mem_cons_self y ys)
                simp [List.isPrefixOf] at hpre
                exact absurd hpre.1 hy
              · rw [if_neg hcond] at hpre
                simp only [List.isPrefixOf, Bool.and_eq_true, beq_iff_eq] at hpre ⊢
                refine ⟨hpre.1, ?_⟩
                cases ys with
                | nil => simp [List.isPrefixOf]
                | cons z zs =>
                    exact ih rest (z :: zs) (by simp at hf; omega)
                      (by simp)
                      (fun hmem => hstar (List.mem_cons_of_mem y hmem))
                      hpre.2

theorem replaceAllAux_no_occurrence (t : List Char) (ht : t ≠ [])
    (hstar : '*' ∉ t) :
    ∀ fuel s, s.length ≤ fuel →
      containsSub t (replaceAllAux t "***".data fuel s) = false := by
  have hth : ∀ th tt, t = th :: tt → th ≠ '*' := by
    intro th tt heq h
    exact hstar (heq ▸ (h ▸ List.mem_cons_self th tt))
  intro fuel
  induction fuel with
  | zero =>
      intro s hf
      cases s with
      | nil =>
          simp [replaceAllAux, containsSub, List.isEmpty_iff, ht]
      | cons c rest => simp at hf
  | succ n ih =>
      intro s hf
      cases s with
      | nil => simp [replaceAllAux, containsSub, List.isEmpty_iff, ht]
      | cons c rest =>
          simp only [replaceAllAux]
          by_cases hcond : t ≠ [] ∧ t.isPrefixOf (c :: rest) = true
          · rw [if_pos hcond]
            obtain ⟨th, tt, rfl⟩ : ∃ th tt, t = th :: tt := by
              cases t with
              | nil => exact absurd rfl ht
              | cons a b => exact ⟨a, b, rfl⟩
            have hth' : th ≠ '*' := hth th tt rfl
            simp only [show ("***".data) = ['*', '*', '*'] from rfl,
              List.cons_append, List.nil_append, containsSub,
              List.isPrefixOf, beq_iff_eq]
            simp [hth']
            exact ih (List.drop tt.length rest) (by
              simp only [List.length_drop, List.length_cons] at hf ⊢
              omega)
          · rw [if_neg hcond]
            have hnp : t.isPrefixOf (c :: rest) ≠ true := by
              intro hp
              exact hcond ⟨ht, hp⟩
            have hrest : rest.length ≤ n := by simp at hf; omega
            simp only [containsSub, Bool.or_eq_false_iff]
            constructor
            · cases hp : t.isPrefixOf (c :: replaceAllAux t "***".data n rest) with
              | false => rfl
              | true =>
                  exfalso
                  obtain ⟨th, tt, rfl⟩ : ∃ th tt, t = th :: tt := by
                    cases t with
                    | nil => exact absurd rfl ht
                    | cons a b => exact ⟨a, b, rfl⟩
                  simp only [List.isPrefixOf, Bool.and_eq_true, beq_iff_eq] at hp
                  cases tt with
                  | nil =>
                      apply hnp
                      simp [List.isPrefixOf, hp.1]
                  | cons u us =>
                      have hpre := noStar_prefix_replaceAllAux (th :: u :: us) n rest
                        (u :: us) hrest (by simp)
                        (fun hm => hstar (List.mem_cons_of_mem th hm)) hp.2
                      apply hnp
                      simp [List.isPrefixOf, hp.1, hpre]
            · exact ih rest hrest

/-- C10 counterexample: the claim concludes that the token text never
appears in the returned error message, but replacing a token of `"*"` by
`"***"` re-introduces it: on stderr `"auth * failed"` the sanitised text
(and hence the full clone error) still contains the token. -/
theorem C10_star_token_counterexample :
    containsSub "*".data (sanitizeString "auth * failed".data "*".data) = true
    ∧ containsSub "*".data (cloneError "auth * failed".data "*".data) = true := by
  decide

/-- C10 as amended: the error returned by `Clone` is built from the
subprocess stderr with every occurrence of the token replaced by `"***"`,
and — provided the non-empty token contains no `'*'` character — the token
does not appear in the sanitised stderr.  (The fixed prefix
`"git clone failed: "` can still spell out a token of its own text, which
is why the conclusion is about the sanitised stderr.) -/
theorem C10_clone_error_sanitized_amended (token stderr : List Char)
    (hne : token ≠ []) (hstar : '*' ∉ token) :
    containsSub token (sanitizeString stderr token) = false
    ∧ cloneError stderr token
        = "git clone failed: ".data ++ replaceAll token "***".data stderr := by
  constructor
  · rw [sanitizeString, if_neg hne, replaceAll]
    exact replaceAllAux_no_occurrence token hne hstar stderr.length stderr le_rfl
  · rw [cloneError, sanitizeString, if_neg hne]

/-- C10 witness: a concrete token free of asterisks is absent from the
sanitised stderr. -/
theorem C10_clone_error_sanitized_amended_witness :
    containsSub "abc".data (sanitizeString "x abc y abc".data "abc".data) = false :=
  (C10_clone_error_sanitized_amended "abc".data "x abc y abc".data
      (by decide) (by decide)).1

end Codeforge
